import Mathlib

/-!
Verification of the PyBaMM experiment protocol compiler
(`pybamm/experiment/experiment.py`) against its natural-language
specification.

The embedding is a shallow one:

* Python strings are Lean `String`s, but every string operation the source
  uses (`split`, `endswith`, `join`, `replace`, `float(...)`, substring
  tests) is re-implemented here over `List Char` by structural or
  fuel-bounded recursion, so that every definition evaluates inside the
  kernel (`decide` / `rfl`).
* Python floats are modelled exactly by `Frac`, an unnormalized fraction
  of an `Int` numerator over a `Nat` denominator.  All numeric literals
  appearing in the source and in the claims are decimal, so this exact
  model is faithful; no normalization (gcd) is ever required because the
  embedded code never compares numbers.
* Python object identity is modelled by a heap (a `List Step`); a step
  object is a heap address (`Nat`).  Allocation appends to the heap, and
  the in-place mutation performed by the default injector is `List.set`
  on the heap.  Two occurrences alias the same object iff they carry the
  same address.
* Fallible code returns `Except String`, carrying the error message of
  the corresponding Python exception.
-/

/-- Decidable equality for `Except`, so that concrete runs of the
embedded code can be checked by `decide`. -/
instance {ε α : Type} [DecidableEq ε] [DecidableEq α] : DecidableEq (Except ε α)
  | .error e1, .error e2 =>
    if h : e1 = e2 then .isTrue (by rw [h])
    else .isFalse (by intro hh; cases hh; exact h rfl)
  | .error _, .ok _ => .isFalse (by intro hh; cases hh)
  | .ok _, .error _ => .isFalse (by intro hh; cases hh)
  | .ok a1, .ok a2 =>
    if h : a1 = a2 then .isTrue (by rw [h])
    else .isFalse (by intro hh; cases hh; exact h rfl)

/-! ## Character-level string utilities (kernel-evaluable) -/

/-- The characters of a string. -/
def strChars (s : String) : List Char := s.data

/-- Rebuild a string from characters. -/
def charsToStr (l : List Char) : String := ⟨l⟩

/-- Split a character list on a (non-empty) separator, Python
`str.split(sep)` semantics.  `fuel` bounds the recursion; it is always
called with `fuel = l.length`, which suffices because each step consumes
at least one character. -/
def splitGo (sep : List Char) : Nat → List Char → List Char → List (List Char)
  | _, [], acc => [acc.reverse]
  | 0, l, acc => [acc.reverse ++ l]
  | fuel + 1, c :: rest, acc =>
    if sep.isPrefixOf (c :: rest) then
      acc.reverse :: splitGo sep fuel (List.drop sep.length (c :: rest)) []
    else
      splitGo sep fuel rest (c :: acc)

/-- Python `s.split(sep)` for a non-empty separator `sep`. -/
def pySplitOn (sep : String) (s : String) : List String :=
  (splitGo sep.data s.data.length s.data []).map charsToStr

/-- Python `s.split()` (split on whitespace, discarding empty fields);
modelled for the space character, the only whitespace the specified
inputs use. -/
def pySplitWS (s : String) : List String :=
  (pySplitOn (" ") s).filter (fun t => t ≠ "")

/-- Python joining of string parts with the empty separator. -/
def pyJoin (parts : List String) : String :=
  charsToStr (parts.map strChars).flatten

/-- Python `s.endswith(suffix)`. -/
def pyEndsWith (suffix s : String) : Bool :=
  suffix.data.isSuffixOf s.data

/-- Python `s[0:-n]`, dropping the last `n` characters. -/
def pyDropRight (s : String) (n : Nat) : String :=
  charsToStr (s.data.take (s.data.length - n))

/-- Python `s.replace(old, new)` for a non-empty `old`. -/
def pyReplace (s old new : String) : String :=
  charsToStr (List.intersperse new.data
    (splitGo old.data s.data.length s.data [])).flatten

/-- Whether the string contains the pattern as a substring
(Python `pat in s`), for a non-empty pattern. -/
def pyContains (pat s : String) : Bool :=
  decide (2 ≤ (pySplitOn pat s).length)

/-- Strip leading and trailing space characters (Python strips any
whitespace around a float literal; the specified inputs only carry
spaces). -/
def trimSpaces (l : List Char) : List Char :=
  ((l.dropWhile (fun c => c = ' ')).reverse.dropWhile (fun c => c = ' ')).reverse

/-- The numeric value of a list of decimal digits. -/
def digitsVal (l : List Char) : Nat :=
  l.foldl (fun n c => 10 * n + (c.toNat - 48)) 0

/-- Whether every character is a decimal digit. -/
def allDigits (l : List Char) : Bool :=
  l.all (fun c => c.isDigit)

/-- Parse a non-empty all-digit string as a natural number. -/
def parseNatDigits (s : String) : Option Nat :=
  if s.data ≠ [] ∧ allDigits s.data then some (digitsVal s.data) else none

/-! ## Exact model of Python floats -/

/-- An exact, unnormalized rational: `num / den`.  Models the Python
floats the experiment code manipulates (all of which are exact decimals).
Kept unnormalized so that every arithmetic operation is kernel-evaluable
(no gcd). -/
structure Frac where
  num : Int
  den : Nat
deriving DecidableEq, Repr

/-- Embed a natural number. -/
def Frac.ofNat (n : Nat) : Frac := ⟨n, 1⟩

/-- Exact addition. -/
def Frac.add (a b : Frac) : Frac :=
  ⟨a.num * b.den + b.num * a.den, a.den * b.den⟩

/-- Exact multiplication. -/
def Frac.mul (a b : Frac) : Frac :=
  ⟨a.num * b.num, a.den * b.den⟩

/-- The constant 273.15 (Celsius-to-Kelvin offset). -/
def kelvinOffset : Frac := ⟨27315, 100⟩

/-- Python `float(s)` on the decimal literals this code feeds it:
optional surrounding spaces, optional sign, digits with an optional
fractional part.  Anything else raises `ValueError`, as in Python. -/
def pyFloat (s : String) : Except String Frac :=
  let l := trimSpaces s.data
  let signAndRest : Int × List Char :=
    match l with
    | '-' :: r => (-1, r)
    | '+' :: r => (1, r)
    | _ => (1, l)
  let sign := signAndRest.1
  let body := signAndRest.2
  match splitGo ['.'] body.length body [] with
  | [intPart] =>
    if intPart ≠ [] ∧ allDigits intPart then
      .ok ⟨sign * digitsVal intPart, 1⟩
    else .error ("ValueError: could not convert string to float: " ++ s)
  | [intPart, fracPart] =>
    if (intPart ≠ [] ∨ fracPart ≠ []) ∧ allDigits intPart ∧ allDigits fracPart then
      .ok ⟨sign * (digitsVal intPart * 10 ^ fracPart.length + digitsVal fracPart),
           10 ^ fracPart.length⟩
    else .error ("ValueError: could not convert string to float: " ++ s)
  | _ => .error ("ValueError: could not convert string to float: " ++ s)

/-! ## Data model -/

/-- The structured step object produced by the external instruction
grammar.  This core only ever reads and writes its `period` and
`temperature` fields (`None` until resolved), as the specification
states; the rest of the operation semantics is opaque and omitted. -/
structure Step where
  period : Option Frac
  temperature : Option Frac
deriving DecidableEq, Repr

/-- A heap of step objects: object identity is the index into this list.
Parsing a fresh instruction allocates at the end; the default injector
mutates in place via `List.set`. -/
abbrev Heap := List Step

/-- A raw instruction as supplied by the user: either text, or a
reference to a pre-built step object living on the heap. -/
inductive Instr where
  | str (s : String)
  | obj (ref : Nat)
deriving DecidableEq, Repr

/-- One element of the `operating_conditions` argument: a lone
instruction, or a tuple of instructions forming one cycle. -/
inductive Condition where
  | single (i : Instr)
  | tuple (l : List Instr)
deriving DecidableEq, Repr

/-- The `termination` argument: `None`, one string, or a list of
strings. -/
inductive TermInput where
  | noTerm
  | one (s : String)
  | many (l : List String)
deriving DecidableEq, Repr

/-- The termination dictionary built by `read_termination`: a Python
dict that is only ever written at the keys `"capacity"` and
`"voltage"`. -/
structure TermDict where
  capacity : Option (Frac × String)
  voltage : Option (Frac × String)
deriving DecidableEq, Repr

/-- The empty termination dictionary. -/
def emptyTermDict : TermDict := ⟨none, none⟩

/-! ## Modelled collaborators (not part of the shown source) -/

/-- Modelled from the spec: `pybamm.experiment.string`, the external
instruction-grammar collaborator, which is out of scope of the core
("given a string, return a step object, or fail").  Minimal faithful
model: blank text fails; a token of the form `<digits>s` gives the step
its own period (that many seconds); a token of the form `<digits>oC`
gives the step its own temperature (converted to Kelvin); otherwise the
corresponding field is left unset.  It is a pure function, so equal
instruction strings parse to equal step values. -/
def parseInstruction (s : String) : Except String Step :=
  if trimSpaces s.data = [] then
    .error ("Step not recognized: " ++ s)
  else
    .ok
      { period :=
          (pySplitWS s).findSome? (fun t =>
            if pyEndsWith ("s") t then
              (parseNatDigits (pyDropRight t 1)).map Frac.ofNat
            else none)
        temperature :=
          (pySplitWS s).findSome? (fun t =>
            if pyEndsWith ("oC") t then
              (parseNatDigits (pyDropRight t 2)).map
                (fun n => Frac.add (Frac.ofNat n) kelvinOffset)
            else none) }

/-- Modelled from the spec: `_convert_time_to_seconds` from the steps
module ("string like 1 hour to seconds"; `None` passes through).  A
string must be `<number> <unit>` with unit seconds, minutes or hours;
anything else raises. -/
def convertTimeToSeconds (t : Option String) : Except String (Option Frac) :=
  match t with
  | none => .ok none
  | some s =>
    match pySplitWS s with
    | [numTok, unitTok] =>
      match pyFloat numTok with
      | .error e => .error e
      | .ok v =>
        if unitTok = "second" ∨ unitTok = "seconds" then
          .ok (some (Frac.mul v (Frac.ofNat 1)))
        else if unitTok = "minute" ∨ unitTok = "minutes" then
          .ok (some (Frac.mul v (Frac.ofNat 60)))
        else if unitTok = "hour" ∨ unitTok = "hours" then
          .ok (some (Frac.mul v (Frac.ofNat 3600)))
        else .error "time units must be seconds, minutes or hours"
    | _ => .error "time must be given in the form <number> <unit>"

/-- Modelled from the spec: `_convert_temperature_to_kelvin`
(Celsius to Kelvin; `None` passes through). -/
def convertTemperatureToKelvin (t : Option Frac) : Option Frac :=
  t.map (fun c => Frac.add c kelvinOffset)

/-! ## Termination parser (`Experiment.read_termination`) -/

/-- Error message of the capacity branch of `read_termination`. -/
def capacityErrMsg : String :=
  "Capacity termination must be given in the form \x2780%\x27, \x274Ah\x27, or \x274A.h\x27"

/-- Error message of the final branch of `read_termination`. -/
def onlyCapacityOrVoltageErrMsg : String :=
  "Only capacity or voltage can be provided as a termination reason, e.g. \x2780% capacity\x27, \x274 Ah capacity\x27, or \x272.5 V\x27"

/-- Python `IndexError` raised by `term_list[-1]` on an empty list. -/
def indexErrMsg : String := "IndexError: list index out of range"

/-- The loop body of `read_termination`, over the normalized list of
termination strings, threading the accumulated dictionary. -/
def readTerminationList (dict : TermDict) : List String → Except String TermDict
  | [] => .ok dict
  | term :: rest =>
    let termList := pySplitWS term
    match termList.getLast? with
    | none => .error indexErrMsg
    | some lastTok =>
      if lastTok = "capacity" then
        let endDischarge := pyJoin termList.dropLast
        -- The source computes `end_discharge.replace("A.h", "Ah")` as an
        -- expression statement and discards the result; mirrored here.
        let _ := pyReplace endDischarge ("A.h") ("Ah")
        if pyEndsWith ("%") endDischarge then
          match pyFloat ((pySplitOn ("%") endDischarge).headD "") with
          | .error e => .error e
          | .ok v => readTerminationList { dict with capacity := some (v, "%") } rest
        else if pyEndsWith ("Ah") endDischarge then
          match pyFloat ((pySplitOn ("Ah") endDischarge).headD "") with
          | .error e => .error e
          | .ok v => readTerminationList { dict with capacity := some (v, "Ah") } rest
        else
          .error capacityErrMsg
      else if pyEndsWith ("V") term then
        match pyFloat ((pySplitOn ("V") term).headD "") with
        | .error e => .error e
        | .ok v => readTerminationList { dict with voltage := some (v, "V") } rest
      else
        .error onlyCapacityOrVoltageErrMsg

/-- The method `Experiment.read_termination`: `None` yields an empty dict, a single
string is wrapped into a one-element list, then each entry is parsed in
order into the accumulated dictionary. -/
def readTermination : TermInput → Except String TermDict
  | .noTerm => .ok emptyTermDict
  | .one s => readTerminationList emptyTermDict [s]
  | .many l => readTerminationList emptyTermDict l

/-! ## Step registry and constructor (`Experiment.__init__`) -/

/-- The statement `if not isinstance(cycle, tuple): cycle = (cycle,)` — wrap a lone
instruction into a one-element cycle. -/
def normalizeCycle : Condition → List Instr
  | .single i => [i]
  | .tuple l => l

/-- Resolve each distinct raw instruction exactly once, in list order:
text is parsed by the instruction grammar, allocating a fresh step object
on the heap; a pre-built step object resolves to itself.  Returns the
grown heap and the `processed_steps` table mapping each raw instruction
to the address of its canonical step object. -/
def resolveAll (heap : Heap) : List Instr → Except String (Heap × List (Instr × Nat))
  | [] => .ok (heap, [])
  | .str s :: rest =>
    match parseInstruction s with
    | .error e => .error e
    | .ok st =>
      match resolveAll (heap ++ [st]) rest with
      | .error e => .error e
      | .ok (h2, table) => .ok (h2, (Instr.str s, heap.length) :: table)
  | .obj r :: rest =>
    match resolveAll heap rest with
    | .error e => .error e
    | .ok (h2, table) => .ok (h2, (Instr.obj r, r) :: table)

/-- Dictionary lookup in the `processed_steps` table
(`processed_steps[step]`; total because the constructor only looks up
instructions that occur in the table). -/
def lookupTable (table : List (Instr × Nat)) (i : Instr) : Nat :=
  match table.find? (fun e => decide (e.fst = i)) with
  | some e => e.snd
  | none => 0

/-- The two independent in-place field updates the default-injection
loop body performs on one step object. -/
def injectStep (p t : Option Frac) (st : Step) : Step :=
  let st1 := if st.period = none then { st with period := p } else st
  if st1.temperature = none then { st1 with temperature := t } else st1

/-- Mutate one step object on the heap (no-op on a dangling address;
in Python an address is always valid). -/
def injectOne (p t : Option Frac) (h : Heap) (r : Nat) : Heap :=
  match h.get? r with
  | none => h
  | some st => h.set r (injectStep p t st)

/-- The default-injection loop: `for step in self.unique_steps: ...`,
mutating the heap in place at each unique step address. -/
def injectDefaults (p t : Option Frac) (h : Heap) : List Nat → Heap
  | [] => h
  | r :: rs => injectDefaults p t (injectOne p t h r) rs

/-- Deprecation error for `cccv_handling`. -/
def cccvErrMsg : String :=
  "cccv_handling has been deprecated, use `pybamm.experiment.cccv_ode(current, voltage)` instead to produce the same behavior as the old `cccv_handling=\x27ode\x27`"

/-- Deprecation error for `drive_cycles`. -/
def driveCyclesErrMsg : String :=
  "drive_cycles should now be passed as an experiment step object, e.g. `pybamm.experiment.current(drive_cycle)`"

/-- The constructed `Experiment` object.  Step references are heap
addresses; `args` retains the constructor arguments verbatim for
`copy()`. -/
structure Experiment where
  args_conditions : List Condition
  args_period : String
  args_temperature : Option Frac
  args_termination : TermInput
  operating_conditions_cycles : List (List Instr)
  cycle_lengths : List Nat
  unique_steps : List Nat
  operating_conditions_steps : List Nat
  termination_string : TermInput
  termination : TermDict
  period : Option Frac
  temperature : Option Frac
deriving DecidableEq, Repr

/-- The constructor `Experiment.__init__`.  Takes the current heap (pre-built step
objects live on it) and the constructor arguments; returns the heap
after allocation and default injection, together with the constructed
experiment, or the error the construction raises. -/
def mkExperiment (heap : Heap) (operating_conditions : List Condition)
    (period : String) (temperature : Option Frac) (termination : TermInput)
    (drive_cycles cccv_handling : Option String) :
    Except String (Heap × Experiment) :=
  if cccv_handling.isSome then .error cccvErrMsg
  else if drive_cycles.isSome then .error driveCyclesErrMsg
  else
    match resolveAll heap ((operating_conditions.map normalizeCycle).flatten.dedup) with
    | .error e => .error e
    | .ok (heap2, table) =>
      match readTermination termination with
      | .error e => .error e
      | .ok termDict =>
        match convertTimeToSeconds (some period) with
        | .error e => .error e
        | .ok periodVal =>
          .ok (injectDefaults periodVal (convertTemperatureToKelvin temperature)
                heap2 ((table.map Prod.snd).dedup),
            { args_conditions := operating_conditions
              args_period := period
              args_temperature := temperature
              args_termination := termination
              operating_conditions_cycles := operating_conditions.map normalizeCycle
              cycle_lengths := (operating_conditions.map normalizeCycle).map List.length
              unique_steps := (table.map Prod.snd).dedup
              operating_conditions_steps :=
                (operating_conditions.map normalizeCycle).flatten.map (lookupTable table)
              termination_string := termination
              termination := termDict
              period := periodVal
              temperature := convertTemperatureToKelvin temperature })

/-- The method `Experiment.copy`: re-invoke the constructor on the retained
arguments (against the current heap). -/
def Experiment.copy (heap : Heap) (e : Experiment) :
    Except String (Heap × Experiment) :=
  mkExperiment heap e.args_conditions e.args_period e.args_temperature
    e.args_termination none none

/-- The step object an occurrence of `operating_conditions_steps`
denotes on a heap: dereference position `p` through the experiment. -/
def stepAt (h : Heap) (e : Experiment) (p : Nat) : Option Step :=
  (e.operating_conditions_steps.get? p).bind h.get?

/-! ## Tag search (`Experiment.search_tag`) -/

/-- Python `TypeError` raised by `" [" in cond` when `cond` is a
pre-built step object (plain objects support no membership test). -/
def tagTypeErrMsg : String := "TypeError: argument of type Step is not iterable"

/-- Python `ValueError` raised by unpacking `cond.split(" [")` into two
names when the instruction contains more than one `" ["`. -/
def tagUnpackErrMsg : String := "ValueError: too many values to unpack"

/-- The inner loop of `search_tag` over one cycle: stop with `true` at
the first instruction whose bracketed tag list contains the tag
(`break`), with an error where Python raises, and `false` if the cycle
is exhausted. -/
def cycleHasTag (tag : String) : List Instr → Except String Bool
  | [] => .ok false
  | .obj _ :: _ => .error tagTypeErrMsg
  | .str s :: rest =>
    match pySplitOn (" [") s with
    | [_] => cycleHasTag tag rest
    | [_, tagStr] =>
      if tag ∈ pySplitOn (",") (pyDropRight tagStr 1) then .ok true
      else cycleHasTag tag rest
    | _ => .error tagUnpackErrMsg

/-- The outer loop of `search_tag`, carrying the index of the current
cycle. -/
def searchTagAux (tag : String) : Nat → List (List Instr) → Except String (List Nat)
  | _, [] => .ok []
  | i, c :: cs =>
    match cycleHasTag tag c with
    | .error e => .error e
    | .ok b =>
      match searchTagAux tag (i + 1) cs with
      | .error e => .error e
      | .ok rest => .ok (if b then i :: rest else rest)

/-- The method `Experiment.search_tag`: the cycles in which the tag appears. -/
def searchTag (e : Experiment) (tag : String) : Except String (List Nat) :=
  searchTagAux tag 0 e.operating_conditions_cycles

/-! ## Lemmas about the default injector -/

theorem injectStep_period_of_some (p t : Option Frac) (st : Step) (p0 : Frac)
    (h : st.period = some p0) : (injectStep p t st).period = some p0 := by
  rcases st with ⟨per, tem⟩
  simp only at h
  subst h
  rcases tem with _ | t0 <;> simp [injectStep]

theorem injectStep_period_of_none (p t : Option Frac) (st : Step)
    (h : st.period = none) : (injectStep p t st).period = p := by
  simp only [injectStep, h]
  split <;> split <;> simp_all

theorem injectStep_temp_of_some (p t : Option Frac) (st : Step) (t0 : Frac)
    (h : st.temperature = some t0) : (injectStep p t st).temperature = some t0 := by
  simp only [injectStep]
  split <;> simp [h]

theorem injectStep_temp_of_none (p t : Option Frac) (st : Step)
    (h : st.temperature = none) : (injectStep p t st).temperature = t := by
  simp only [injectStep]
  split <;> simp [h]

theorem injectStep_idem (p t : Option Frac) (st : Step) :
    injectStep p t (injectStep p t st) = injectStep p t st := by
  rcases st with ⟨per, tem⟩
  rcases per with _ | p0 <;> rcases tem with _ | t0 <;>
    rcases p with _ | pv <;> rcases t with _ | tv <;> simp [injectStep]

theorem injectOne_length (p t : Option Frac) (h : Heap) (r : Nat) :
    (injectOne p t h r).length = h.length := by
  unfold injectOne
  split <;> simp [List.length_set]

theorem injectDefaults_length (p t : Option Frac) (h : Heap) (rs : List Nat) :
    (injectDefaults p t h rs).length = h.length := by
  induction rs generalizing h with
  | nil => rfl
  | cons r rs ih => simp [injectDefaults, ih, injectOne_length]

theorem injectOne_get?_ne (p t : Option Frac) (h : Heap) (r r2 : Nat) (hne : r ≠ r2) :
    (injectOne p t h r).get? r2 = h.get? r2 := by
  unfold injectOne
  split
  · rfl
  · rw [List.get?_set]
    simp [hne]

theorem injectOne_get?_self (p t : Option Frac) (h : Heap) (r : Nat) :
    (injectOne p t h r).get? r = (h.get? r).map (injectStep p t) := by
  unfold injectOne
  cases hst : h.get? r with
  | none =>
    show h.get? r = none
    exact hst
  | some st =>
    show (h.set r (injectStep p t st)).get? r = some (injectStep p t st)
    rw [List.get?_set, if_pos rfl, hst]
    rfl

theorem injectDefaults_get?_not_mem (p t : Option Frac) (h : Heap) (rs : List Nat)
    (r : Nat) (hr : r ∉ rs) : (injectDefaults p t h rs).get? r = h.get? r := by
  induction rs generalizing h with
  | nil => rfl
  | cons a rs ih =>
    have hne : a ≠ r := fun hh => hr (hh ▸ List.mem_cons_self a rs)
    have hr2 : r ∉ rs := fun hh => hr (List.mem_cons_of_mem a hh)
    simp only [injectDefaults]
    rw [ih _ hr2, injectOne_get?_ne p t h a r hne]

theorem injectDefaults_get?_mem (p t : Option Frac) (h : Heap) (rs : List Nat)
    (r : Nat) (hnd : rs.Nodup) (hr : r ∈ rs) :
    (injectDefaults p t h rs).get? r = (h.get? r).map (injectStep p t) := by
  induction rs generalizing h with
  | nil => cases hr
  | cons a rs ih =>
    rcases List.mem_cons.mp hr with heq | hmem
    · subst heq
      have hnotin : r ∉ rs := (List.nodup_cons.mp hnd).1
      simp only [injectDefaults]
      rw [injectDefaults_get?_not_mem p t _ rs r hnotin, injectOne_get?_self]
    · have hne : a ≠ r := fun hh => (List.nodup_cons.mp hnd).1 (hh ▸ hmem)
      simp only [injectDefaults]
      rw [ih _ (List.nodup_cons.mp hnd).2 hmem, injectOne_get?_ne p t h a r hne]

/-! ## Lemmas about the step registry -/

theorem resolveAll_heap_le (heap : Heap) (l : List Instr) (h2 : Heap)
    (table : List (Instr × Nat)) (h : resolveAll heap l = .ok (h2, table)) :
    heap <+: h2 := by
  induction l generalizing heap h2 table with
  | nil =>
    simp only [resolveAll] at h
    cases h
    exact List.prefix_refl heap
  | cons i rest ih =>
    cases i with
    | str s =>
      simp only [resolveAll] at h
      split at h
      · cases h
      · rename_i st hst
        split at h
        · cases h
        · rename_i h3 t3 hrest
          cases h
          exact List.IsPrefix.trans (List.prefix_append heap [st]) (ih _ _ _ hrest)
    | obj r =>
      simp only [resolveAll] at h
      split at h
      · cases h
      · rename_i h3 t3 hrest
        cases h
        exact ih _ _ _ hrest

theorem resolveAll_keys (heap : Heap) (l : List Instr) (h2 : Heap)
    (table : List (Instr × Nat)) (h : resolveAll heap l = .ok (h2, table)) :
    table.map Prod.fst = l := by
  induction l generalizing heap h2 table with
  | nil =>
    simp only [resolveAll] at h
    cases h
    rfl
  | cons i rest ih =>
    cases i with
    | str s =>
      simp only [resolveAll] at h
      split at h
      · cases h
      · rename_i st hst
        split at h
        · cases h
        · rename_i h3 t3 hrest
          cases h
          simp [ih _ _ _ hrest]
    | obj r =>
      simp only [resolveAll] at h
      split at h
      · cases h
      · rename_i h3 t3 hrest
        cases h
        simp [ih _ _ _ hrest]

theorem resolveAll_entries (heap : Heap) (l : List Instr) (h2 : Heap)
    (table : List (Instr × Nat)) (h : resolveAll heap l = .ok (h2, table)) :
    ∀ pr ∈ table,
      (∃ s, pr.1 = Instr.str s ∧ heap.length ≤ pr.2 ∧ pr.2 < h2.length ∧
        ∃ st, parseInstruction s = .ok st ∧ h2.get? pr.2 = some st) ∨
      pr.1 = Instr.obj pr.2 := by
  induction l generalizing heap h2 table with
  | nil =>
    simp only [resolveAll] at h
    cases h
    intro pr hpr
    cases hpr
  | cons i rest ih =>
    cases i with
    | str s =>
      simp only [resolveAll] at h
      split at h
      · cases h
      · rename_i st hst
        split at h
        · cases h
        · rename_i h3 t3 hrest
          cases h
          intro pr hpr
          rcases List.mem_cons.mp hpr with heq | hmem
          · subst heq
            left
            refine ⟨s, rfl, le_refl _, ?_, st, hst, ?_⟩
            · have hpre := resolveAll_heap_le _ _ _ _ hrest
              have := List.IsPrefix.length_le hpre
              simp at this
              omega
            · have hpre := resolveAll_heap_le _ _ _ _ hrest
              rcases hpre with ⟨tail, htail⟩
              subst htail
              rw [List.get?_append]
              · rw [List.get?_concat_length]
              · simp
          · rcases ih _ _ _ hrest pr hmem with ⟨s2, hs2, hle, hlt, hst2⟩ | hobj
            · left
              refine ⟨s2, hs2, ?_, hlt, hst2⟩
              simp at hle
              omega
            · right
              exact hobj
    | obj r =>
      simp only [resolveAll] at h
      split at h
      · cases h
      · rename_i h3 t3 hrest
        cases h
        intro pr hpr
        rcases List.mem_cons.mp hpr with heq | hmem
        · subst heq
          right
          rfl
        · exact ih _ _ _ hrest pr hmem

theorem resolveAll_addr_lt (heap : Heap) (l : List Instr) (h2 : Heap)
    (table : List (Instr × Nat)) (h : resolveAll heap l = .ok (h2, table))
    (hwf : ∀ r, Instr.obj r ∈ l → r < heap.length) :
    ∀ a ∈ table.map Prod.snd, a < h2.length := by
  intro a ha
  rcases List.mem_map.mp ha with ⟨pr, hpr, hsnd⟩
  subst hsnd
  rcases resolveAll_entries _ _ _ _ h pr hpr with ⟨s, _, _, hlt, _⟩ | hobj
  · exact hlt
  · have hmem : Instr.obj pr.2 ∈ l := by
      rw [← resolveAll_keys _ _ _ _ h]
      rw [← hobj]
      exact List.mem_map_of_mem Prod.fst hpr
    have := hwf pr.2 hmem
    have hle := List.IsPrefix.length_le (resolveAll_heap_le _ _ _ _ h)
    omega

theorem lookupTable_found (table : List (Instr × Nat)) (i : Instr)
    (hmem : i ∈ table.map Prod.fst) :
    ∃ pr ∈ table, pr.1 = i ∧ lookupTable table i = pr.2 := by
  rcases List.mem_map.mp hmem with ⟨pr0, hpr0, hfst⟩
  have hsome : (table.find? (fun e => decide (e.fst = i))).isSome := by
    rw [List.find?_isSome]
    exact ⟨pr0, hpr0, by simp [hfst]⟩
  rcases Option.isSome_iff_exists.mp hsome with ⟨pr, hpr⟩
  refine ⟨pr, List.mem_of_find?_eq_some hpr, ?_, ?_⟩
  · have := List.find?_some hpr
    simpa using this
  · unfold lookupTable
    rw [hpr]

/-! ## Constructor characterization -/

theorem convertTimeToSeconds_some (s : String) (v : Option Frac)
    (h : convertTimeToSeconds (some s) = .ok v) : ∃ q, v = some q := by
  simp only [convertTimeToSeconds] at h
  split at h
  · split at h
    · exact Except.noConfusion h
    · split at h
      · rw [Except.ok.injEq] at h
        exact ⟨_, h.symm⟩
      · split at h
        · rw [Except.ok.injEq] at h
          exact ⟨_, h.symm⟩
        · split at h
          · rw [Except.ok.injEq] at h
            exact ⟨_, h.symm⟩
          · exact Except.noConfusion h
  · exact Except.noConfusion h

theorem mkExperiment_ok_elim (heap : Heap) (oc : List Condition) (period : String)
    (temp : Option Frac) (term : TermInput) (dc cc : Option String)
    (hp : Heap) (e : Experiment)
    (h : mkExperiment heap oc period temp term dc cc = .ok (hp, e)) :
    ∃ heap2 table termDict periodVal,
      resolveAll heap ((oc.map normalizeCycle).flatten.dedup) = .ok (heap2, table) ∧
      readTermination term = .ok termDict ∧
      convertTimeToSeconds (some period) = .ok periodVal ∧
      hp = injectDefaults periodVal (convertTemperatureToKelvin temp) heap2
            ((table.map Prod.snd).dedup) ∧
      e = { args_conditions := oc
            args_period := period
            args_temperature := temp
            args_termination := term
            operating_conditions_cycles := oc.map normalizeCycle
            cycle_lengths := (oc.map normalizeCycle).map List.length
            unique_steps := (table.map Prod.snd).dedup
            operating_conditions_steps :=
              (oc.map normalizeCycle).flatten.map (lookupTable table)
            termination_string := term
            termination := termDict
            period := periodVal
            temperature := convertTemperatureToKelvin temp } := by
  unfold mkExperiment at h
  by_cases hcc : cc.isSome
  · rw [if_pos hcc] at h
    exact Except.noConfusion h
  · rw [if_neg hcc] at h
    by_cases hdc : dc.isSome
    · rw [if_pos hdc] at h
      exact Except.noConfusion h
    · rw [if_neg hdc] at h
      cases hres : resolveAll heap ((oc.map normalizeCycle).flatten.dedup) with
      | error e2 =>
        rw [hres] at h
        exact Except.noConfusion h
      | ok pr =>
        rcases pr with ⟨heap2, table⟩
        rw [hres] at h
        cases hterm : readTermination term with
        | error e2 =>
          rw [hterm] at h
          exact Except.noConfusion h
        | ok termDict =>
          rw [hterm] at h
          cases hconv : convertTimeToSeconds (some period) with
          | error e2 =>
            rw [hconv] at h
            exact Except.noConfusion h
          | ok periodVal =>
            rw [hconv] at h
            rw [Except.ok.injEq, Prod.mk.injEq] at h
            exact ⟨heap2, table, termDict, periodVal, rfl, rfl, rfl,
              h.1.symm, h.2.symm⟩

/-! ## Lemmas about tag search -/

theorem splitGo_ne_nil (sep : List Char) (fuel : Nat) (l acc : List Char) :
    splitGo sep fuel l acc ≠ [] := by
  induction fuel generalizing l acc with
  | zero => cases l <;> simp [splitGo]
  | succ n ih =>
    cases l with
    | nil => simp [splitGo]
    | cons c rest =>
      simp only [splitGo]
      split
      · simp
      · exact ih rest (c :: acc)

theorem pySplitOn_ne_nil (sep s : String) : pySplitOn sep s ≠ [] := by
  unfold pySplitOn
  intro hh
  exact splitGo_ne_nil sep.data s.data.length s.data []
    ((List.map_eq_nil).mp hh)

theorem cycleHasTag_ok (tag : String) (c : List Instr)
    (hc : ∀ ins ∈ c, ∃ s, ins = Instr.str s ∧ (pySplitOn (" [") s).length ≤ 2) :
    ∃ b, cycleHasTag tag c = .ok b := by
  induction c with
  | nil => exact ⟨false, rfl⟩
  | cons i rest ih =>
    rcases hc i (List.mem_cons_self i rest) with ⟨s, hs, hlen⟩
    subst hs
    have hrest := ih (fun j hj => hc j (List.mem_cons_of_mem _ hj))
    simp only [cycleHasTag]
    rcases hsplit : pySplitOn (" [") s with _ | ⟨a, tl⟩
    · exact absurd hsplit (pySplitOn_ne_nil _ _)
    · rcases tl with _ | ⟨b2, tl2⟩
      · exact hrest
      · rcases tl2 with _ | ⟨c3, tl3⟩
        · show ∃ b, (if tag ∈ pySplitOn (",") (pyDropRight b2 1) then Except.ok true
            else cycleHasTag tag rest) = .ok b
          by_cases htag : tag ∈ pySplitOn (",") (pyDropRight b2 1)
          · exact ⟨true, by rw [if_pos htag]⟩
          · rcases hrest with ⟨b0, hb0⟩
            exact ⟨b0, by rw [if_neg htag]; exact hb0⟩
        · rw [hsplit] at hlen
          simp at hlen

theorem searchTagAux_ok (tag : String) (i : Nat) (cs : List (List Instr))
    (hcs : ∀ c ∈ cs, ∀ ins ∈ c,
      ∃ s, ins = Instr.str s ∧ (pySplitOn (" [") s).length ≤ 2) :
    ∃ l, searchTagAux tag i cs = .ok l := by
  induction cs generalizing i with
  | nil => exact ⟨[], rfl⟩
  | cons c cs ih =>
    rcases cycleHasTag_ok tag c (hcs c (List.mem_cons_self c cs)) with ⟨b, hb⟩
    rcases ih (i + 1) (fun c2 hc2 => hcs c2 (List.mem_cons_of_mem _ hc2)) with ⟨l, hl⟩
    refine ⟨if b then i :: l else l, ?_⟩
    simp only [searchTagAux]
    rw [hb, hl]

theorem searchTagAux_sorted (tag : String) (i : Nat) (cs : List (List Instr))
    (l : List Nat) (h : searchTagAux tag i cs = .ok l) :
    l.Pairwise (fun a b => a < b) ∧ ∀ j ∈ l, i ≤ j ∧ j < i + cs.length := by
  induction cs generalizing i l with
  | nil =>
    simp only [searchTagAux] at h
    rw [Except.ok.injEq] at h
    subst h
    exact ⟨List.Pairwise.nil, by simp⟩
  | cons c cs ih =>
    simp only [searchTagAux] at h
    cases hb : cycleHasTag tag c with
    | error e =>
      rw [hb] at h
      exact Except.noConfusion h
    | ok b =>
      rw [hb] at h
      cases hrest : searchTagAux tag (i + 1) cs with
      | error e =>
        rw [hrest] at h
        exact Except.noConfusion h
      | ok rest =>
        rw [hrest] at h
        rw [Except.ok.injEq] at h
        subst h
        rcases ih (i + 1) rest hrest with ⟨hpw, hbnd⟩
        cases b with
        | false =>
          refine ⟨hpw, fun j hj => ?_⟩
          have := hbnd j hj
          simp only [List.length_cons]
          omega
        | true =>
          constructor
          · refine List.pairwise_cons.mpr ⟨fun j hj => ?_, hpw⟩
            have := hbnd j hj
            omega
          · intro j hj
            simp only [List.length_cons]
            rcases List.mem_cons.mp hj with heq | hj2
            · subst heq
              omega
            · have := hbnd j hj2
              omega

/-! ## Claims -/

/-- C5: the termination parser maps the literal inputs as specified:
`80% capacity` to capacity (80.0, `%`); `4Ah capacity` to capacity
(4.0, `Ah`); `2.5 V` to voltage (2.5, `V`); the two-element list to both
entries; `80 capacity` (no suffix) to the capacity-format error; `abc`
to the only-capacity-or-voltage error; and `None` to the empty mapping.
In the `Frac` model, 80.0 is ⟨80, 1⟩ and 2.5 is ⟨25, 10⟩. -/
theorem C5_termination_literal_cases :
    readTermination (.one "80% capacity") = .ok ⟨some (⟨80, 1⟩, "%"), none⟩ ∧
    readTermination (.one "4Ah capacity") = .ok ⟨some (⟨4, 1⟩, "Ah"), none⟩ ∧
    readTermination (.one "2.5 V") = .ok ⟨none, some (⟨25, 10⟩, "V")⟩ ∧
    readTermination (.many ["80% capacity", "2.5 V"]) =
      .ok ⟨some (⟨80, 1⟩, "%"), some (⟨25, 10⟩, "V")⟩ ∧
    readTermination (.one "80 capacity") = .error capacityErrMsg ∧
    readTermination (.one "abc") = .error onlyCapacityOrVoltageErrMsg ∧
    readTermination .noTerm = .ok emptyTermDict := by
  decide

/-- C10: `4A.h capacity` raises the capacity-format error even though
that error message names `4A.h` as an accepted form: the source discards
the result of the `A.h`-to-`Ah` replacement (which, had it been kept,
would have produced the accepted `4Ah`), so no `A.h`-suffixed capacity
termination is ever accepted. -/
theorem C10_Ah_dot_form_never_accepted :
    readTermination (.one "4A.h capacity") = .error capacityErrMsg ∧
    pyReplace "4A.h" ("A.h") ("Ah") = "4Ah" ∧
    readTermination (.one "4Ah capacity") = .ok ⟨some (⟨4, 1⟩, "Ah"), none⟩ ∧
    pyContains ("4A.h") capacityErrMsg = true := by
  decide

/-- C8: constructing with any non-None `cccv_handling` raises the cccv
deprecation error; with `cccv_handling` None and any non-None
`drive_cycles`, the drive-cycles deprecation error; in either case no
Experiment is produced, regardless of the other arguments. -/
theorem C8_deprecated_arguments_always_raise (heap : Heap) (oc : List Condition)
    (period : String) (temp : Option Frac) (term : TermInput) (dc cc : Option String) :
    (cc ≠ none → mkExperiment heap oc period temp term dc cc = .error cccvErrMsg) ∧
    (cc = none → dc ≠ none →
      mkExperiment heap oc period temp term dc cc = .error driveCyclesErrMsg) ∧
    ((dc ≠ none ∨ cc ≠ none) →
      ∃ msg, mkExperiment heap oc period temp term dc cc = .error msg) := by
  have h1 : cc ≠ none → mkExperiment heap oc period temp term dc cc = .error cccvErrMsg := by
    intro hcc
    unfold mkExperiment
    rw [if_pos (Option.isSome_iff_ne_none.mpr hcc)]
  have h2 : cc = none → dc ≠ none →
      mkExperiment heap oc period temp term dc cc = .error driveCyclesErrMsg := by
    intro hcc hdc
    subst hcc
    unfold mkExperiment
    rw [if_neg (by simp), if_pos (Option.isSome_iff_ne_none.mpr hdc)]
  refine ⟨h1, h2, ?_⟩
  intro hor
  by_cases hcc : cc = none
  · subst hcc
    rcases hor with hdc | hccne
    · exact ⟨_, h2 rfl hdc⟩
    · exact absurd rfl hccne
  · exact ⟨_, h1 hcc⟩

/-- Witness for C8: a concrete non-None value for each deprecated
argument makes the constructor raise the corresponding error. -/
theorem C8_deprecated_arguments_witness :
    mkExperiment [] [] "1 minute" none .noTerm (some "cycle.csv") none =
      .error driveCyclesErrMsg ∧
    mkExperiment [] [] "1 minute" none .noTerm none (some "ode") = .error cccvErrMsg :=
  ⟨(C8_deprecated_arguments_always_raise [] [] "1 minute" none .noTerm
      (some "cycle.csv") none).2.1 rfl (by decide),
   (C8_deprecated_arguments_always_raise [] [] "1 minute" none .noTerm
      none (some "ode")).1 (by decide)⟩

/-- C7: default injection sets a step period from the experiment default
only when the step period is unset, and independently for temperature; a
step with an explicit value retains it; and re-running the injection
pass with the same defaults changes nothing (idempotence, both for one
step and for the whole pass over distinct unique-step addresses). -/
theorem C7_default_injection_inheritance (p t : Option Frac) (st : Step) :
    (∀ p0, st.period = some p0 → (injectStep p t st).period = some p0) ∧
    (st.period = none → (injectStep p t st).period = p) ∧
    (∀ t0, st.temperature = some t0 → (injectStep p t st).temperature = some t0) ∧
    (st.temperature = none → (injectStep p t st).temperature = t) ∧
    injectStep p t (injectStep p t st) = injectStep p t st ∧
    ∀ (h : Heap) (refs : List Nat), refs.Nodup →
      injectDefaults p t (injectDefaults p t h refs) refs =
        injectDefaults p t h refs := by
  refine ⟨fun p0 h0 => injectStep_period_of_some p t st p0 h0,
    fun h0 => injectStep_period_of_none p t st h0,
    fun t0 h0 => injectStep_temp_of_some p t st t0 h0,
    fun h0 => injectStep_temp_of_none p t st h0,
    injectStep_idem p t st, ?_⟩
  intro h refs hnd
  apply List.ext
  intro n
  by_cases hn : n ∈ refs
  · rw [injectDefaults_get?_mem p t _ refs n hnd hn,
      injectDefaults_get?_mem p t h refs n hnd hn]
    cases hg : h.get? n with
    | none => rfl
    | some st2 => simp [injectStep_idem]
  · rw [injectDefaults_get?_not_mem p t _ refs n hn,
      injectDefaults_get?_not_mem p t h refs n hn]

/-- Witness for C7: concrete checks at an explicit period (retained), a
missing temperature (filled), and a one-step heap (pass idempotence). -/
theorem C7_default_injection_witness :
    (injectStep (some ⟨60, 1⟩) (some ⟨29815, 100⟩) ⟨some ⟨5, 1⟩, none⟩).period =
      some ⟨5, 1⟩ ∧
    (injectStep (some ⟨60, 1⟩) (some ⟨29815, 100⟩) ⟨some ⟨5, 1⟩, none⟩).temperature =
      some ⟨29815, 100⟩ ∧
    injectDefaults (some ⟨60, 1⟩) none
        (injectDefaults (some ⟨60, 1⟩) none [⟨none, none⟩] [0]) [0] =
      injectDefaults (some ⟨60, 1⟩) none [⟨none, none⟩] [0] :=
  ⟨(C7_default_injection_inheritance (some ⟨60, 1⟩) (some ⟨29815, 100⟩)
      ⟨some ⟨5, 1⟩, none⟩).1 ⟨5, 1⟩ rfl,
   (C7_default_injection_inheritance (some ⟨60, 1⟩) (some ⟨29815, 100⟩)
      ⟨some ⟨5, 1⟩, none⟩).2.2.2.1 rfl,
   (C7_default_injection_inheritance (some ⟨60, 1⟩) none
      ⟨none, none⟩).2.2.2.2.2 [⟨none, none⟩] [0] (by decide)⟩

/-- Whether a condition is a lone (ungrouped) instruction. -/
def isSingleCond : Condition → Bool
  | .single _ => true
  | .tuple _ => false

/-- C9: `cycle_lengths[i]` always equals the length of
`operating_conditions_cycles[i]`, and a flat list of N ungrouped
instructions yields N cycles with `cycle_lengths = [1] * N`. -/
theorem C9_shape_normalization (heap : Heap) (oc : List Condition)
    (period : String) (temp : Option Frac) (term : TermInput)
    (hp : Heap) (e : Experiment)
    (hok : mkExperiment heap oc period temp term none none = .ok (hp, e)) :
    (∀ i : Nat, e.cycle_lengths.get? i =
      (e.operating_conditions_cycles.get? i).map List.length) ∧
    ((∀ c ∈ oc, isSingleCond c = true) →
      e.operating_conditions_cycles.length = oc.length ∧
      e.cycle_lengths = List.replicate oc.length 1) := by
  rcases mkExperiment_ok_elim _ _ _ _ _ _ _ _ _ hok with
    ⟨heap2, table, termDict, periodVal, hres, hterm, hconv, hhp, hE⟩
  subst hE
  dsimp only
  constructor
  · intro i
    rw [List.get?_map]
  · intro hflat
    constructor
    · rw [List.length_map]
    · rw [List.eq_replicate]
      constructor
      · rw [List.length_map, List.length_map]
      · intro b hb
        rcases List.mem_map.mp hb with ⟨c2, hc2, hlen⟩
        rcases List.mem_map.mp hc2 with ⟨c, hc, hnorm⟩
        have hone := hflat c hc
        cases c with
        | single ins =>
          subst hnorm
          subst hlen
          rfl
        | tuple l2 => simp [isSingleCond] at hone

/-- Heap of the two-cycle witness experiment (constructed at 25 degrees
Celsius from the instructions A, (B, A)). -/
def heapC1 : Heap :=
  [⟨some ⟨60, 1⟩, some ⟨29815, 100⟩⟩, ⟨some ⟨60, 1⟩, some ⟨29815, 100⟩⟩]

/-- The two-cycle witness experiment: the instruction string A occurs at
flattened positions 0 and 2, B at position 1. -/
def exC1 : Experiment :=
  { args_conditions := [.single (.str "A"), .tuple [.str "B", .str "A"]]
    args_period := "1 minute"
    args_temperature := some ⟨25, 1⟩
    args_termination := .noTerm
    operating_conditions_cycles := [[.str "A"], [.str "B", .str "A"]]
    cycle_lengths := [1, 2]
    unique_steps := [0, 1]
    operating_conditions_steps := [1, 0, 1]
    termination_string := .noTerm
    termination := emptyTermDict
    period := some ⟨60, 1⟩
    temperature := some ⟨29815, 100⟩ }

/-- C1: in a successfully constructed Experiment, two flattened
positions carrying the same instruction string resolve to the same
canonical step reference (the same heap address), so the step object
read through either occurrence is the same — any mutation of that
object is observed at every occurrence. -/
theorem C1_dedup_identity (heap : Heap) (oc : List Condition) (period : String)
    (temp : Option Frac) (term : TermInput) (hp : Heap) (e : Experiment)
    (s : String) (p q : Nat)
    (hok : mkExperiment heap oc period temp term none none = .ok (hp, e))
    (hpPos : e.operating_conditions_cycles.flatten.get? p = some (Instr.str s))
    (hqPos : e.operating_conditions_cycles.flatten.get? q = some (Instr.str s)) :
    e.operating_conditions_steps.get? p = e.operating_conditions_steps.get? q ∧
    stepAt hp e p = stepAt hp e q := by
  rcases mkExperiment_ok_elim _ _ _ _ _ _ _ _ _ hok with
    ⟨heap2, table, termDict, periodVal, hres, hterm, hconv, hhp, hE⟩
  subst hE
  dsimp only at hpPos hqPos ⊢
  have h1 : (List.map (lookupTable table) (List.map normalizeCycle oc).flatten).get? p
      = some (lookupTable table (Instr.str s)) := by
    rw [List.get?_map, hpPos]
    rfl
  have h2 : (List.map (lookupTable table) (List.map normalizeCycle oc).flatten).get? q
      = some (lookupTable table (Instr.str s)) := by
    rw [List.get?_map, hqPos]
    rfl
  refine ⟨by rw [h1, h2], ?_⟩
  unfold stepAt
  dsimp only
  rw [h1, h2]

/-- Witness for C1: in the concrete two-cycle experiment, positions 0
and 2 (both the instruction string A) carry the same step reference and
dereference to the same step object. -/
theorem C1_dedup_identity_witness :
    exC1.operating_conditions_steps.get? 0 = exC1.operating_conditions_steps.get? 2 ∧
    stepAt heapC1 exC1 0 = stepAt heapC1 exC1 2 :=
  C1_dedup_identity [] [.single (.str "A"), .tuple [.str "B", .str "A"]] "1 minute"
    (some ⟨25, 1⟩) .noTerm heapC1 exC1 "A" 0 2 (by decide) (by decide) (by decide)

/-- Heap of the flat-list witness experiment. -/
def heapC9w : Heap := [⟨some ⟨60, 1⟩, none⟩, ⟨some ⟨60, 1⟩, none⟩]

/-- The flat-list witness experiment: two ungrouped instructions. -/
def exC9w : Experiment :=
  { args_conditions := [.single (.str "A"), .single (.str "B")]
    args_period := "1 minute"
    args_temperature := none
    args_termination := .noTerm
    operating_conditions_cycles := [[.str "A"], [.str "B"]]
    cycle_lengths := [1, 1]
    unique_steps := [0, 1]
    operating_conditions_steps := [0, 1]
    termination_string := .noTerm
    termination := emptyTermDict
    period := some ⟨60, 1⟩
    temperature := none }

/-- Witness for C9: a flat list of two instructions yields two cycles of
length one, and the parallel-lengths invariant holds at index 0. -/
theorem C9_shape_normalization_witness :
    exC9w.cycle_lengths = List.replicate 2 1 ∧
    exC9w.cycle_lengths.get? 0 =
      (exC9w.operating_conditions_cycles.get? 0).map List.length :=
  ⟨((C9_shape_normalization [] [.single (.str "A"), .single (.str "B")] "1 minute"
      none .noTerm heapC9w exC9w (by decide)).2 (by decide)).2,
   (C9_shape_normalization [] [.single (.str "A"), .single (.str "B")] "1 minute"
      none .noTerm heapC9w exC9w (by decide)).1 0⟩

/-- Heap of the default-temperature counterexample experiment. -/
def heapC2 : Heap := [⟨some ⟨60, 1⟩, none⟩]

/-- The counterexample experiment: one parsed instruction, experiment
temperature left at its default None. -/
def exC2 : Experiment :=
  { args_conditions := [.single (.str "Rest for 10 minutes")]
    args_period := "1 minute"
    args_temperature := none
    args_termination := .noTerm
    operating_conditions_cycles := [[.str "Rest for 10 minutes"]]
    cycle_lengths := [1]
    unique_steps := [0]
    operating_conditions_steps := [0]
    termination_string := .noTerm
    termination := emptyTermDict
    period := some ⟨60, 1⟩
    temperature := none }

/-- Counterexample to C2: constructing with the experiment temperature
left at its default None succeeds, yet the unique step parsed from the
instruction (which carries no temperature of its own) still has
temperature None after the constructor returns — the claim that neither
field is ever left None regardless of the default temperature fails. -/
theorem C2_counterexample :
    mkExperiment [] [.single (.str "Rest for 10 minutes")] "1 minute" none
      .noTerm none none = .ok (heapC2, exC2) ∧
    exC2.unique_steps = [0] ∧
    heapC2.get? 0 = some ⟨some ⟨60, 1⟩, none⟩ ∧
    (Step.mk (some ⟨60, 1⟩) none).temperature = none := by
  refine ⟨by decide, by decide, by decide, rfl⟩

/-- C2 (amended): the period and the temperature of a unique step are each
written at most once, only when unset; after a successful construction
every unique step has a period, and it also has a temperature provided
the experiment-wide temperature argument was not None.  (When that
argument is None, a step without its own parsed temperature keeps
temperature None — see the counterexample.) -/
theorem C2_amended_fields_set (heap : Heap) (oc : List Condition)
    (period : String) (t0 : Frac) (term : TermInput) (hp : Heap) (e : Experiment)
    (hwf : ∀ r, Instr.obj r ∈ (oc.map normalizeCycle).flatten → r < heap.length)
    (hok : mkExperiment heap oc period (some t0) term none none = .ok (hp, e)) :
    ∀ r ∈ e.unique_steps, ∃ st, hp.get? r = some st ∧
      st.period ≠ none ∧ st.temperature ≠ none := by
  rcases mkExperiment_ok_elim _ _ _ _ _ _ _ _ _ hok with
    ⟨heap2, table, termDict, periodVal, hres, hterm, hconv, hhp, hE⟩
  subst hE
  subst hhp
  intro r hr
  dsimp only at hr
  have hrm : r ∈ table.map Prod.snd := List.mem_dedup.mp hr
  have hwf2 : ∀ r2, Instr.obj r2 ∈ (oc.map normalizeCycle).flatten.dedup →
      r2 < heap.length := fun r2 h2 => hwf r2 (List.mem_dedup.mp h2)
  have hlt : r < heap2.length := resolveAll_addr_lt _ _ _ _ hres hwf2 r hrm
  rcases Option.isSome_iff_exists.mp
    (by rw [List.get?_eq_get hlt]; rfl : (heap2.get? r).isSome) with ⟨st0, hst0⟩
  have hnd : ((table.map Prod.snd).dedup).Nodup := List.nodup_dedup _
  rw [injectDefaults_get?_mem _ _ _ _ r hnd hr, hst0]
  refine ⟨injectStep periodVal (convertTemperatureToKelvin (some t0)) st0, rfl, ?_, ?_⟩
  · rcases convertTimeToSeconds_some period periodVal hconv with ⟨pq, hpq⟩
    subst hpq
    cases hper : st0.period with
    | none =>
      rw [injectStep_period_of_none _ _ _ hper]
      simp
    | some p0 =>
      rw [injectStep_period_of_some _ _ _ _ hper]
      simp
  · cases htem : st0.temperature with
    | none =>
      rw [injectStep_temp_of_none _ _ _ htem]
      simp [convertTemperatureToKelvin]
    | some t1 =>
      rw [injectStep_temp_of_some _ _ _ _ htem]
      simp

/-- Witness for C2 (amended): in the concrete experiment constructed at
25 degrees Celsius, the unique step at address 0 has both fields set. -/
theorem C2_amended_fields_set_witness :
    ∃ st, heapC1.get? 0 = some st ∧ st.period ≠ none ∧ st.temperature ≠ none :=
  C2_amended_fields_set [] [.single (.str "A"), .tuple [.str "B", .str "A"]]
    "1 minute" ⟨25, 1⟩ .noTerm heapC1 exC1
    (by intro r hr; simp [normalizeCycle] at hr) (by decide) 0 (by decide)

/-- Counterexample to C3: the cycles of a constructed Experiment hold
the raw instruction strings, not Step references, so flattening
`operating_conditions_cycles` does not yield the sequence of Step
references `operating_conditions_steps`: already for a single string
instruction the flattened cycle entry is the text, while the steps entry
is the resolved step object. -/
theorem C3_counterexample :
    mkExperiment [] [.single (.str "Rest for 10 minutes")] "1 minute" none
      .noTerm none none = .ok (heapC2, exC2) ∧
    exC2.operating_conditions_cycles.flatten ≠
      exC2.operating_conditions_steps.map Instr.obj := by
  refine ⟨by decide, by decide⟩

/-- C3 (amended): flattening `operating_conditions_cycles` yields the
raw instruction sequence, which resolves pointwise to exactly
`operating_conditions_steps` (same length; a pre-built step instruction
resolves to itself; equal raw instructions resolve to equal step
references), and every step reference in `operating_conditions_steps` is
a member of `unique_steps`. -/
theorem C3_amended_flatten_resolves (heap : Heap) (oc : List Condition)
    (period : String) (temp : Option Frac) (term : TermInput)
    (hp : Heap) (e : Experiment)
    (hok : mkExperiment heap oc period temp term none none = .ok (hp, e)) :
    e.operating_conditions_steps.length = e.operating_conditions_cycles.flatten.length ∧
    (∀ p r, e.operating_conditions_cycles.flatten.get? p = some (Instr.obj r) →
      e.operating_conditions_steps.get? p = some r) ∧
    (∀ p q, e.operating_conditions_cycles.flatten.get? p =
        e.operating_conditions_cycles.flatten.get? q →
      e.operating_conditions_steps.get? p = e.operating_conditions_steps.get? q) ∧
    (∀ r ∈ e.operating_conditions_steps, r ∈ e.unique_steps) := by
  rcases mkExperiment_ok_elim _ _ _ _ _ _ _ _ _ hok with
    ⟨heap2, table, termDict, periodVal, hres, hterm, hconv, hhp, hE⟩
  subst hE
  dsimp only
  have hkeys := resolveAll_keys _ _ _ _ hres
  refine ⟨List.length_map _ _, ?_, ?_, ?_⟩
  · intro p r hpr
    rw [List.get?_map, hpr]
    have hmemflat : Instr.obj r ∈ (oc.map normalizeCycle).flatten :=
      List.get?_mem hpr
    have hmemk : Instr.obj r ∈ table.map Prod.fst := by
      rw [hkeys]
      exact List.mem_dedup.mpr hmemflat
    rcases lookupTable_found table _ hmemk with ⟨pr, hprmem, hfst, hlk⟩
    rcases resolveAll_entries _ _ _ _ hres pr hprmem with ⟨s2, hs2, _⟩ | hobj
    · rw [hfst] at hs2
      exact Instr.noConfusion hs2
    · rw [hfst] at hobj
      injection hobj with hr2
      show some (lookupTable table (Instr.obj r)) = some r
      rw [hlk, hr2]
  · intro p q hpq
    rw [List.get?_map, List.get?_map, hpq]
  · intro r hr
    rcases List.mem_map.mp hr with ⟨i, hiflat, hlk⟩
    have hmemk : i ∈ table.map Prod.fst := by
      rw [hkeys]
      exact List.mem_dedup.mpr hiflat
    rcases lookupTable_found table i hmemk with ⟨pr, hprmem, hfst, hlk2⟩
    rw [← hlk, hlk2]
    exact List.mem_dedup.mpr (List.mem_map_of_mem Prod.snd hprmem)

/-- Witness for C3 (amended): the amended properties hold on the
concrete one-instruction experiment, and its single step reference is a
member of its unique steps. -/
theorem C3_amended_flatten_resolves_witness :
    exC2.operating_conditions_steps.length =
      exC2.operating_conditions_cycles.flatten.length ∧
    0 ∈ exC2.unique_steps :=
  ⟨(C3_amended_flatten_resolves [] [.single (.str "Rest for 10 minutes")]
      "1 minute" none .noTerm heapC2 exC2 (by decide)).1,
   (C3_amended_flatten_resolves [] [.single (.str "Rest for 10 minutes")]
      "1 minute" none .noTerm heapC2 exC2 (by decide)).2.2.2 0 (by decide)⟩

/-- Heap of the pre-built-step counterexample: one step object built
before the experiment, with its own period. -/
def heapC4 : Heap := [⟨some ⟨7, 1⟩, none⟩]

/-- The counterexample experiment whose only operating condition is the
pre-built step object at address 0. -/
def exC4 : Experiment :=
  { args_conditions := [.single (.obj 0)]
    args_period := "1 minute"
    args_temperature := none
    args_termination := .noTerm
    operating_conditions_cycles := [[.obj 0]]
    cycle_lengths := [1]
    unique_steps := [0]
    operating_conditions_steps := [0]
    termination_string := .noTerm
    termination := emptyTermDict
    period := some ⟨60, 1⟩
    temperature := none }

/-- Counterexample to C4: an Experiment built from a pre-built step
object and its `copy()` alias the very same step object — the copy
re-invokes the constructor on the retained arguments, and those
arguments contain the original step object itself, so the address 0 is
reachable from both experiments and a mutation through one would be
observed through the other. -/
theorem C4_counterexample :
    mkExperiment heapC4 [.single (.obj 0)] "1 minute" none .noTerm none none =
      .ok (heapC4, exC4) ∧
    Experiment.copy heapC4 exC4 = .ok (heapC4, exC4) ∧
    0 ∈ exC4.operating_conditions_steps ∧
    0 ∈ exC4.unique_steps := by
  refine ⟨by decide, by decide, by decide, by decide⟩

/-- C4 (amended): when every operating-condition instruction is a
string, `copy()` shares no step object with the original: every step
address of the original is distinct from every step address of the copy
(the copy reparses each instruction, allocating fresh objects).  With
pre-built step instructions the isolation fails — see the
counterexample. -/
theorem C4_amended_copy_isolation (heap : Heap) (oc : List Condition)
    (period : String) (temp : Option Frac) (term : TermInput)
    (h1 : Heap) (e1 : Experiment) (h2 : Heap) (e2 : Experiment)
    (hstr : ∀ ins ∈ (oc.map normalizeCycle).flatten, ∃ s, ins = Instr.str s)
    (hok1 : mkExperiment heap oc period temp term none none = .ok (h1, e1))
    (hok2 : Experiment.copy h1 e1 = .ok (h2, e2)) :
    ∀ r1 ∈ e1.operating_conditions_steps, ∀ r2 ∈ e2.operating_conditions_steps,
      r1 ≠ r2 := by
  rcases mkExperiment_ok_elim _ _ _ _ _ _ _ _ _ hok1 with
    ⟨heap2, table, termDict, periodVal, hres, hterm, hconv, hhp, hE⟩
  subst hE
  unfold Experiment.copy at hok2
  dsimp only at hok2
  rcases mkExperiment_ok_elim _ _ _ _ _ _ _ _ _ hok2 with
    ⟨heap4, table2, termDict2, periodVal2, hres2, hterm2, hconv2, hhp2, hE2⟩
  subst hE2
  dsimp only
  intro r1 hr1 r2 hr2
  have hlen1 : h1.length = heap2.length := by
    rw [hhp]
    exact injectDefaults_length _ _ _ _
  have hkeys1 := resolveAll_keys _ _ _ _ hres
  have hkeys2 := resolveAll_keys _ _ _ _ hres2
  rcases List.mem_map.mp hr1 with ⟨i1, hi1, hlk1⟩
  rcases hstr i1 hi1 with ⟨s1, hs1⟩
  subst hs1
  have hm1 : Instr.str s1 ∈ table.map Prod.fst := by
    rw [hkeys1]
    exact List.mem_dedup.mpr hi1
  rcases lookupTable_found table _ hm1 with ⟨pr1, hpr1mem, hfst1, hlk1b⟩
  rcases resolveAll_entries _ _ _ _ hres pr1 hpr1mem with
    ⟨s0, hs0, hge0, hlt0, _⟩ | hobj1
  · rcases List.mem_map.mp hr2 with ⟨i2, hi2, hlk2⟩
    rcases hstr i2 hi2 with ⟨s2, hs2⟩
    subst hs2
    have hm2 : Instr.str s2 ∈ table2.map Prod.fst := by
      rw [hkeys2]
      exact List.mem_dedup.mpr hi2
    rcases lookupTable_found table2 _ hm2 with ⟨pr2, hpr2mem, hfst2, hlk2b⟩
    rcases resolveAll_entries _ _ _ _ hres2 pr2 hpr2mem with
      ⟨s3, hs3, hge3, hlt3, _⟩ | hobj2
    · have hr1lt : r1 < heap2.length := by
        rw [← hlk1, hlk1b]
        exact hlt0
      have hr2ge : h1.length ≤ r2 := by
        rw [← hlk2, hlk2b]
        exact hge3
      omega
    · rw [hfst2] at hobj2
      exact Instr.noConfusion hobj2
  · rw [hfst1] at hobj1
    exact Instr.noConfusion hobj1

/-- Heap after constructing the all-string witness experiment. -/
def heapC4w1 : Heap := [⟨some ⟨60, 1⟩, none⟩]

/-- The all-string witness experiment (its step allocated at 0). -/
def exC4w1 : Experiment :=
  { args_conditions := [.single (.str "A")]
    args_period := "1 minute"
    args_temperature := none
    args_termination := .noTerm
    operating_conditions_cycles := [[.str "A"]]
    cycle_lengths := [1]
    unique_steps := [0]
    operating_conditions_steps := [0]
    termination_string := .noTerm
    termination := emptyTermDict
    period := some ⟨60, 1⟩
    temperature := none }

/-- Heap after copying the all-string witness experiment: the copy
allocated a fresh step at address 1. -/
def heapC4w2 : Heap := [⟨some ⟨60, 1⟩, none⟩, ⟨some ⟨60, 1⟩, none⟩]

/-- The copy of the all-string witness experiment (its step is the
freshly allocated address 1). -/
def exC4w2 : Experiment :=
  { args_conditions := [.single (.str "A")]
    args_period := "1 minute"
    args_temperature := none
    args_termination := .noTerm
    operating_conditions_cycles := [[.str "A"]]
    cycle_lengths := [1]
    unique_steps := [1]
    operating_conditions_steps := [1]
    termination_string := .noTerm
    termination := emptyTermDict
    period := some ⟨60, 1⟩
    temperature := none }

/-- Witness for C4 (amended): the all-string experiment holds address 0,
its copy holds address 1, and the two are distinct. -/
theorem C4_amended_copy_isolation_witness :
    0 ∈ exC4w1.operating_conditions_steps ∧
    1 ∈ exC4w2.operating_conditions_steps ∧
    (0 : Nat) ≠ 1 :=
  ⟨by decide, by decide,
   C4_amended_copy_isolation [] [.single (.str "A")] "1 minute" none .noTerm
     heapC4w1 exC4w1 heapC4w2 exC4w2
     (by
       intro ins hins
       simp [normalizeCycle] at hins
       exact ⟨"A", hins⟩)
     (by decide) (by decide) 0 (by decide) 1 (by decide)⟩

/-- Heap of the tag-search counterexample: one pre-built step object. -/
def heapC6 : Heap := [⟨some ⟨7, 1⟩, some ⟨300, 1⟩⟩]

/-- The tag-search counterexample experiment, built from a pre-built
step object, so its cycle holds a non-string instruction. -/
def exC6 : Experiment :=
  { args_conditions := [.single (.obj 0)]
    args_period := "1 minute"
    args_temperature := none
    args_termination := .noTerm
    operating_conditions_cycles := [[.obj 0]]
    cycle_lengths := [1]
    unique_steps := [0]
    operating_conditions_steps := [0]
    termination_string := .noTerm
    termination := emptyTermDict
    period := some ⟨60, 1⟩
    temperature := none }

/-- Heap of the second tag-search counterexample experiment. -/
def heapC6m : Heap := [⟨some ⟨60, 1⟩, none⟩]

/-- The second tag-search counterexample experiment: its single string
instruction contains two occurrences of the tag-opening marker. -/
def exC6m : Experiment :=
  { args_conditions := [.single (.str "Rest [a] [b]")]
    args_period := "1 minute"
    args_temperature := none
    args_termination := .noTerm
    operating_conditions_cycles := [[.str "Rest [a] [b]"]]
    cycle_lengths := [1]
    unique_steps := [0]
    operating_conditions_steps := [0]
    termination_string := .noTerm
    termination := emptyTermDict
    period := some ⟨60, 1⟩
    temperature := none }

/-- Counterexample to C6, exhibiting both failure modes of the claim.
First, a constructed Experiment whose cycle holds a pre-built step
object makes `search_tag` raise a `TypeError` (the source evaluates a
substring test on the step object), instead of skipping the non-string
instruction without error as claimed.  Second, a constructed Experiment
whose cycle holds a string instruction with two occurrences of the
tag-opening marker makes `search_tag` raise a `ValueError` (unpacking
the three-part split into two names), so even for all-string experiments
the claimed for-every-Experiment success fails. -/
theorem C6_counterexample :
    (mkExperiment heapC6 [.single (.obj 0)] "1 minute" none .noTerm none none =
      .ok (heapC6, exC6) ∧
     searchTag exC6 "tag1" = .error tagTypeErrMsg) ∧
    (mkExperiment [] [.single (.str "Rest [a] [b]")] "1 minute" none .noTerm
        none none = .ok (heapC6m, exC6m) ∧
     searchTag exC6m "a" = .error tagUnpackErrMsg) := by
  refine ⟨⟨by decide, by decide⟩, by decide, by decide⟩

/-- C6 (amended): on an Experiment all of whose cycle instructions are
strings containing at most one occurrence of the tag-opening marker,
`search_tag` succeeds and returns cycle indices in strictly ascending
order (hence each index at most once, one per cycle, with the scan of a
cycle stopping at its first match), each below the number of cycles;
strings without the marker are treated as having no tags.  Outside the
hypothesis the scan raises instead: a `TypeError` at a non-string
instruction, a `ValueError` at a string with two or more markers — both
exhibited by the counterexample. -/
theorem C6_amended_search_tag (e : Experiment) (tag : String)
    (hstr : ∀ c ∈ e.operating_conditions_cycles, ∀ ins ∈ c,
      ∃ s, ins = Instr.str s ∧ (pySplitOn (" [") s).length ≤ 2) :
    ∃ l, searchTag e tag = .ok l ∧ l.Pairwise (fun a b => a < b) ∧ l.Nodup ∧
      ∀ j ∈ l, j < e.operating_conditions_cycles.length := by
  rcases searchTagAux_ok tag 0 e.operating_conditions_cycles hstr with ⟨l, hl⟩
  rcases searchTagAux_sorted tag 0 e.operating_conditions_cycles l hl with ⟨hpw, hbnd⟩
  refine ⟨l, hl, hpw, ?_, ?_⟩
  · exact List.Pairwise.imp (fun hlt => Nat.ne_of_lt hlt) hpw
  · intro j hj
    have := hbnd j hj
    omega

/-- The tag-search witness experiment from the specification: three
one-instruction cycles tagged tag1, tag2 and tag1+tag2. -/
def exC6w : Experiment :=
  { args_conditions :=
      [.single (.str "Charge at 1C for 1 hour [tag1]"),
       .single (.str "Rest for 10 minutes [tag2]"),
       .single (.str "Hold at 4.2V until C/50 [tag1,tag2]")]
    args_period := "1 minute"
    args_temperature := none
    args_termination := .noTerm
    operating_conditions_cycles :=
      [[.str "Charge at 1C for 1 hour [tag1]"],
       [.str "Rest for 10 minutes [tag2]"],
       [.str "Hold at 4.2V until C/50 [tag1,tag2]"]]
    cycle_lengths := [1, 1, 1]
    unique_steps := [0, 1, 2]
    operating_conditions_steps := [0, 1, 2]
    termination_string := .noTerm
    termination := emptyTermDict
    period := some ⟨60, 1⟩
    temperature := none }

/-- Witness for C6 (amended): on the three-cycle tagged experiment the
search finds tag1 in cycles 0 and 2, and the amended properties hold. -/
theorem C6_amended_search_tag_witness :
    searchTag exC6w "tag1" = .ok [0, 2] ∧
    (∃ l, searchTag exC6w "tag1" = .ok l ∧ l.Pairwise (fun a b => a < b) ∧
      l.Nodup ∧ ∀ j ∈ l, j < exC6w.operating_conditions_cycles.length) :=
  ⟨by decide,
   C6_amended_search_tag exC6w "tag1"
     (by
       intro c hc ins hins
       simp only [exC6w] at hc
       rcases List.mem_cons.mp hc with h1 | hc2
       · subst h1
         simp at hins
         exact ⟨"Charge at 1C for 1 hour [tag1]", hins, by decide⟩
       · rcases List.mem_cons.mp hc2 with h2 | hc3
         · subst h2
           simp at hins
           exact ⟨"Rest for 10 minutes [tag2]", hins, by decide⟩
         · rcases List.mem_cons.mp hc3 with h3 | hc4
           · subst h3
             simp at hins
             exact ⟨"Hold at 4.2V until C/50 [tag1,tag2]", hins, by decide⟩
           · cases hc4)⟩
